import Mathlib

/-!
Shallow embedding of the reconciliation and consistency engine of gtui
(a terminal Gmail client): the Local Store (db.rs), the Modification
Guard (sync.rs), the Reconciler sync cycle, the Priority Queue drain,
and the archive/delete/undo handlers (main.rs).  Machine integers
(i64) are modelled as Int; the monotone clock (std::time::Instant) as
Nat, with Rust's saturating duration_since mirrored by truncated Nat
subtraction.
-/

namespace Gtui

/-- models.rs: Message row. -/
structure Message where
  id : String
  thread_id : String
  snippet : Option String
  from_address : Option String
  to_address : Option String
  subject : Option String
  internal_date : Int
  body_plain : Option String
  body_html : Option String
  is_read : Bool
deriving Repr, DecidableEq

/-- Message::default() (all fields Default). -/
def defaultMessage : Message :=
  ⟨"", "", none, none, none, none, 0, none, none, false⟩

/-- The Local Store: the messages table and the message_labels
many-to-many table of db.rs. -/
structure Store where
  messages : List Message
  message_labels : List (String × String)
deriving Repr, DecidableEq

/-- db.rs message_exists: SELECT 1 FROM messages WHERE id = ?. -/
def message_exists (st : Store) (id : String) : Bool :=
  st.messages.any (fun m => m.id == id)

/-- db.rs get_message_date: SELECT internal_date FROM messages WHERE id = ?. -/
def get_message_date (st : Store) (id : String) : Option Int :=
  (st.messages.find? (fun m => m.id == id)).map (fun m => m.internal_date)

/-- db.rs upsert_messages, body of the per-message loop: INSERT with
ON CONFLICT(id) DO UPDATE SET snippet, is_read, body_plain, body_html;
then INSERT OR IGNORE the (message_id, label_id) association. -/
def upsertOne (st : Store) (msg : Message) (label_id : String) : Store :=
  let messages :=
    if message_exists st msg.id then
      st.messages.map (fun m =>
        if m.id == msg.id then
          { m with snippet := msg.snippet, is_read := msg.is_read,
                   body_plain := msg.body_plain, body_html := msg.body_html }
        else m)
    else st.messages ++ [msg]
  let assoc :=
    if (msg.id, label_id) ∈ st.message_labels then st.message_labels
    else st.message_labels ++ [(msg.id, label_id)]
  ⟨messages, assoc⟩

/-- db.rs upsert_messages: the loop over the message slice. -/
def upsert_messages (st : Store) (msgs : List Message) (label_id : String) : Store :=
  msgs.foldl (fun s m => upsertOne s m label_id) st

/-- db.rs remove_label_from_message: DELETE FROM message_labels WHERE
message_id = ? AND label_id = ?. -/
def remove_label_from_message (st : Store) (message_id label_id : String) : Store :=
  { st with message_labels :=
      st.message_labels.filter (fun pr => !(pr.1 == message_id && pr.2 == label_id)) }

/-- db.rs delete_message: delete all label associations of the id, then
the message row itself. -/
def delete_message (st : Store) (id : String) : Store :=
  ⟨st.messages.filter (fun m => !(m.id == id)),
   st.message_labels.filter (fun pr => !(pr.1 == id))⟩

/-- Modelled from the spec: db.add_label_to_message is called by main.rs
(archive rollback and undo) but its definition is absent from the given
db.rs; per the spec it re-adds the removed label association, i.e. an
INSERT OR IGNORE into message_labels. -/
def add_label_to_message (st : Store) (message_id label_id : String) : Store :=
  { st with message_labels :=
      if (message_id, label_id) ∈ st.message_labels then st.message_labels
      else st.message_labels ++ [(message_id, label_id)] }

/-- Insertion step of an ORDER BY key DESC sort. -/
def insertByKeyDesc (key : α → Int) (x : α) : List α → List α
  | [] => [x]
  | y :: ys => if key y < key x then x :: y :: ys else y :: insertByKeyDesc key x ys

/-- ORDER BY key DESC. -/
def sortByKeyDesc (key : α → Int) (l : List α) : List α :=
  l.foldr (insertByKeyDesc key) []

/-- db.rs get_messages_with_dates_by_label: ids and dates of messages
under a label, ORDER BY internal_date DESC LIMIT ?. -/
def get_messages_with_dates_by_label (st : Store) (label_id : String) (limit : Nat) :
    List (String × Int) :=
  let rows := (st.messages.filter (fun m => (m.id, label_id) ∈ st.message_labels)).map
    (fun m => (m.id, m.internal_date))
  (sortByKeyDesc (fun pr => pr.2) rows).take limit

/-- db.rs get_messages_by_thread: all messages of a thread,
ORDER BY internal_date DESC. -/
def get_messages_by_thread (st : Store) (thread_id : String) : List Message :=
  sortByKeyDesc (fun m => m.internal_date)
    (st.messages.filter (fun m => m.thread_id == thread_id))

/- ===== Modification Guard (sync.rs SyncState) ===== -/

/-- sync.rs GRACE_PERIOD: 5 minutes, in seconds. -/
def GRACE_PERIOD : Nat := 300

/-- The recently_modified HashMap<String, Instant>, as an association
list with unique keys; Instant as Nat seconds. -/
def hmLookup (g : List (String × Nat)) (id : String) : Option Nat :=
  (g.find? (fun p => p.1 == id)).map (fun p => p.2)

/-- HashMap::insert: replace the value when the key is present, else add. -/
def hmInsert (g : List (String × Nat)) (id : String) (t : Nat) : List (String × Nat) :=
  if g.any (fun p => p.1 == id) then
    g.map (fun p => if p.1 == id then (id, t) else p)
  else g ++ [(id, t)]

/-- HashMap::remove by key. -/
def hmRemove (g : List (String × Nat)) (id : String) : List (String × Nat) :=
  g.filter (fun p => !(p.1 == id))

/-- sync.rs SyncState. -/
structure SyncState where
  synced_labels : List String
  currently_syncing : Option String
  recently_modified : List (String × Nat)
deriving Repr, DecidableEq

/-- sync.rs mark_modified_many: record now for each id. -/
def mark_modified_many (g : List (String × Nat)) (ids : List String) (now : Nat) :
    List (String × Nat) :=
  ids.foldl (fun g id => hmInsert g id now) g

/-- sync.rs is_recently_modified: an entry exists and its age is within
the grace period.  now.duration_since t is truncated Nat subtraction. -/
def is_recently_modified (g : List (String × Nat)) (now : Nat) (id : String) : Bool :=
  match hmLookup g id with
  | some t => now - t < GRACE_PERIOD
  | none => false

/-- sync.rs cleanup_expired: retain only entries within the grace period. -/
def cleanup_expired (g : List (String × Nat)) (now : Nat) : List (String × Nat) :=
  g.filter (fun p => now - p.2 < GRACE_PERIOD)

/- ===== Reconciler sync cycle (main.rs, sync task) ===== -/

/-- i64::MAX, the initial value of the oldest_date watermark. -/
def i64Max : Int := 9223372036854775807

/-- Accumulator of the per-page id scan of the sync loop. -/
structure ScanAcc where
  messages : List Message
  remote_ids : List String
  oldest_date : Int
deriving Repr, DecidableEq

/-- main.rs sync loop, `for id in &ids` scan: skip guarded ids entirely
(not added to remote_ids); otherwise record the id as seen remotely,
and either take the known local date or fetch the unknown message,
tracking the minimum internal_date.  fetch models
gmail.get_message (None = the call failed and is swallowed). -/
def scanIds (fetch : String → Option Message) (guard : String → Bool) (st : Store) :
    List String → ScanAcc → ScanAcc
  | [], acc => acc
  | id :: rest, acc =>
    if guard id then scanIds fetch guard st rest acc
    else
      let acc1 := { acc with remote_ids := acc.remote_ids ++ [id] }
      let acc2 :=
        if message_exists st id then
          match get_message_date st id with
          | some d => { acc1 with oldest_date := min acc1.oldest_date d }
          | none => acc1
        else
          match fetch id with
          | some msg =>
            { acc1 with oldest_date := min acc1.oldest_date msg.internal_date,
                        messages := acc1.messages ++ [msg] }
          | none => acc1
      scanIds fetch guard st rest acc2

/-- main.rs sync loop removal inference, `for (local_id, local_date) in
local_info`: skip guarded ids; remove the label association of a local
message that is inside the remote date window yet was not seen remotely. -/
def removalPass (guard : String → Bool) (remote_ids : List String)
    (oldest_date : Int) (label_id : String) :
    List (String × Int) → Store → Store
  | [], st => st
  | (local_id, local_date) :: rest, st =>
    if guard local_id then removalPass guard remote_ids oldest_date label_id rest st
    else if oldest_date ≤ local_date ∧ remote_ids.contains local_id = false then
      removalPass guard remote_ids oldest_date label_id rest
        (remove_label_from_message st local_id label_id)
    else removalPass guard remote_ids oldest_date label_id rest st

/-- main.rs sync loop, one label of one cycle: scan the fetched page,
upsert the newly fetched messages under the label, and perform removal
inference only when the page had no next-page token and was non-empty.
guard abstracts is_recently_modified under the SyncState lock. -/
def syncLabelCycle (fetch : String → Option Message) (guard : String → Bool)
    (st : Store) (label_id : String) (ids : List String)
    (next_page_token : Option String) : Store :=
  let scan := scanIds fetch guard st ids ⟨[], [], i64Max⟩
  let should_remove := next_page_token.isNone && !ids.isEmpty
  let st1 := upsert_messages st scan.messages label_id
  if should_remove then
    removalPass guard scan.remote_ids scan.oldest_date label_id
      (get_messages_with_dates_by_label st1 label_id 200) st1
  else st1

/- ===== Priority Queue drain (main.rs lines 139-151) ===== -/

/-- The `while let Ok(p) = priority_rx.try_recv()` drain: the channel is
FIFO, so folding over the enqueued order keeps the last value. -/
def lastEnqueued (q : List String) : Option String :=
  q.foldl (fun _ p => some p) none

/-- main.rs: after the drain, if the priority label occurs in the fetched
label list, remove it at its position and insert it at the front (the
element removed at that position equals the priority id, by the position
predicate). -/
def buildOrder (fetched : List String) (q : List String) : List String :=
  match lastEnqueued q with
  | none => fetched
  | some p =>
    match fetched.findIdx? (fun id => id == p) with
    | some pos => p :: fetched.eraseIdx pos
    | none => fetched

/- ===== UI handlers: archive, delete, undo (main.rs event loop) ===== -/

/-- undo.rs UndoableAction. -/
inductive UndoableAction where
  | Delete (messages : List Message) (label_id : String) (original_index : Nat)
  | Archive (messages : List Message) (label_id : String) (original_index : Nat)
deriving Repr, DecidableEq

/-- undo.rs description(). -/
def UndoableAction.description : UndoableAction → String
  | .Delete _ _ _ => "delete"
  | .Archive _ _ _ => "archive"

/-- ui.rs FocusedPanel (the part the handlers branch on). -/
inductive FocusedPanel where
  | Labels
  | Messages
  | Details
deriving Repr, DecidableEq

/-- Remote Mailbox Facade calls spawned fire-and-forget by the undo
handler; tracked as a log so "no remote call" is statable. -/
inductive RemoteCall where
  | untrash (id : String)
  | unarchive (id : String)
  | addLabel (id : String) (label_id : String)
deriving Repr, DecidableEq

/-- The slice of ui_state (main.rs UiState) the handlers read and write,
together with the Local Store handle and the shared SyncState guard map.
labels holds the label ids in display order. -/
structure AppState where
  store : Store
  labels : List String
  selected_label_index : Nat
  ui_messages : List Message
  selected_message_index : Nat
  threaded_messages : List Message
  undo_stack : List UndoableAction
  guard : List (String × Nat)
  status_message : Option String
  focused_panel : FocusedPanel
deriving Repr, DecidableEq

/-- The `for id in &message_ids { state.recently_modified.remove(id) }`
loop of the failure branches. -/
def removeKeys (g : List (String × Nat)) (ids : List String) : List (String × Nat) :=
  ids.foldl hmRemove g

/-- main.rs, shared tail of the delete and archive success paths:
remove the selected entry from the UI list, clamp the selection, and
refresh the detail view from the store. -/
def applyUiRemoval (app : AppState) : AppState :=
  let msgs := app.ui_messages.eraseIdx app.selected_message_index
  let idx :=
    if app.selected_message_index ≥ msgs.length ∧ msgs ≠ [] then msgs.length - 1
    else app.selected_message_index
  let threaded :=
    match msgs[idx]? with
    | some msg => get_messages_by_thread app.store msg.thread_id
    | none => []
  { app with ui_messages := msgs, selected_message_index := idx,
             threaded_messages := threaded }

/-- main.rs delete handler: guard the thread's ids, push the Delete
action BEFORE the remote trash call, delete the rows synchronously,
await the remote trash (gmailPresent models `if let Some(gmail)`,
apiErr the trash_messages result), and on failure re-upsert the rows,
unguard the ids and report; the UI list is updated only on success. -/
def deleteThread (gmailPresent : Bool) (apiErr : Option String) (now : Nat)
    (app : AppState) : AppState :=
  if app.focused_panel = FocusedPanel.Labels then app
  else
    let app := { app with focused_panel := FocusedPanel.Messages }
    match app.ui_messages[app.selected_message_index]? with
    | none => app
    | some m =>
      let thread_messages := get_messages_by_thread app.store m.thread_id
      let message_ids := thread_messages.map (fun m => m.id)
      let guard1 := mark_modified_many app.guard message_ids now
      let current_label_id := (app.labels[app.selected_label_index]?).getD "INBOX"
      let original_index := app.selected_message_index
      let undo1 :=
        UndoableAction.Delete thread_messages current_label_id original_index
          :: app.undo_stack
      let store1 := message_ids.foldl delete_message app.store
      if gmailPresent then
        match apiErr with
        | none =>
          applyUiRemoval
            { app with store := store1, guard := guard1, undo_stack := undo1,
                       status_message := some "Deleted successfully" }
        | some e =>
          { app with store := upsert_messages store1 thread_messages current_label_id,
                     guard := removeKeys guard1 message_ids,
                     undo_stack := undo1,
                     status_message := some ("Delete failed: " ++ e) }
      else
        applyUiRemoval { app with store := store1, guard := guard1, undo_stack := undo1 }

/-- main.rs archive handler: guard the thread's ids, remove the label
(the viewed CATEGORY_* label, else INBOX) synchronously, await the
remote call, and on failure re-add the label, unguard and report; the
Archive action is pushed and the UI updated only on success. -/
def archiveThread (gmailPresent : Bool) (apiErr : Option String) (now : Nat)
    (app : AppState) : AppState :=
  if app.focused_panel = FocusedPanel.Labels then app
  else
    let app := { app with focused_panel := FocusedPanel.Messages }
    match app.ui_messages[app.selected_message_index]? with
    | none => app
    | some m =>
      let thread_messages := get_messages_by_thread app.store m.thread_id
      let message_ids := thread_messages.map (fun m => m.id)
      let guard1 := mark_modified_many app.guard message_ids now
      let current_label_id := (app.labels[app.selected_label_index]?).getD "INBOX"
      let label_to_remove :=
        if current_label_id.startsWith "CATEGORY_" then current_label_id else "INBOX"
      let store1 :=
        message_ids.foldl (fun s id => remove_label_from_message s id label_to_remove)
          app.store
      let pushAndUpdate (app1 : AppState) : AppState :=
        let original_index := app1.selected_message_index
        applyUiRemoval
          { app1 with undo_stack :=
              UndoableAction.Archive thread_messages label_to_remove original_index
                :: app1.undo_stack }
      if gmailPresent then
        match apiErr with
        | none =>
          pushAndUpdate
            { app with store := store1, guard := guard1,
                       status_message := some "Archived successfully" }
        | some e =>
          let store2 :=
            message_ids.foldl (fun s id => add_label_to_message s id label_to_remove) store1
          { app with store := store2,
                     guard := removeKeys guard1 message_ids,
                     status_message := some ("Archive failed: " ++ e) }
      else
        pushAndUpdate { app with store := store1, guard := guard1 }

/-- main.rs undo handler: only in the Messages or Details panel; pop the
ledger (no-op when empty) and replay the inverse action, returning the
fire-and-forget remote calls it spawns. -/
def undoAction (app : AppState) : AppState × List RemoteCall :=
  if app.focused_panel = FocusedPanel.Messages ∨ app.focused_panel = FocusedPanel.Details
  then
    match app.undo_stack with
    | [] => (app, [])
    | action :: rest =>
      let app := { app with undo_stack := rest }
      match action with
      | .Delete messages label_id original_index =>
        let representative := (messages.head?).getD defaultMessage
        let insert_index := min original_index app.ui_messages.length
        let msgs := app.ui_messages.insertIdx insert_index representative
        let store2 := upsert_messages app.store messages label_id
        let calls := messages.map (fun m => RemoteCall.untrash m.id)
        ({ app with ui_messages := msgs, selected_message_index := insert_index,
                    store := store2,
                    threaded_messages := get_messages_by_thread store2 representative.thread_id,
                    status_message := some ("Undone: " ++ UndoableAction.description
                      (.Delete messages label_id original_index)) }, calls)
      | .Archive messages label_id original_index =>
        let representative := (messages.head?).getD defaultMessage
        let current_label := (app.labels[app.selected_label_index]?)
        let sameLabel := current_label = some label_id
        let app1 :=
          if sameLabel then
            let insert_index := min original_index app.ui_messages.length
            { app with ui_messages := app.ui_messages.insertIdx insert_index representative,
                       selected_message_index := insert_index }
          else app
        let store2 :=
          messages.foldl (fun s msg => add_label_to_message s msg.id label_id) app1.store
        let calls :=
          if label_id = "INBOX" then messages.map (fun m => RemoteCall.unarchive m.id)
          else messages.map (fun m => RemoteCall.addLabel m.id label_id)
        let app2 :=
          if sameLabel then
            { app1 with store := store2,
                        threaded_messages :=
                          get_messages_by_thread store2 representative.thread_id }
          else { app1 with store := store2 }
        ({ app2 with status_message := some ("Undone: " ++ UndoableAction.description
              (.Archive messages label_id original_index)) }, calls)
  else (app, [])

/- ===== Concrete fixtures ===== -/

def msgA : Message := ⟨"A", "tA", none, none, none, none, 100, none, none, false⟩

def msgB : Message := ⟨"B", "tA", none, none, none, none, 200, none, none, false⟩

def msgG : Message := ⟨"G", "tG", none, none, none, none, 500, none, none, false⟩

/-- Label INBOX holding messages A (date 100) and B (date 200). -/
def storeAB : Store := ⟨[msgA, msgB], [("A", "INBOX"), ("B", "INBOX")]⟩

/-- Label INBOX holding messages G (date 500) and B (date 200). -/
def storeGB : Store := ⟨[msgG, msgB], [("G", "INBOX"), ("B", "INBOX")]⟩

/-- A remote facade whose get_message always fails. -/
def fetchNone : String → Option Message := fun _ => none

/-- An empty Modification Guard. -/
def noGuard : String → Bool := fun _ => false

/-- A guard holding exactly the id G. -/
def guardG : String → Bool := fun s => s == "G"

/-- A UI state viewing INBOX with thread tA selected, empty ledger. -/
def app0 : AppState :=
  { store := storeAB
    labels := ["INBOX", "SENT"]
    selected_label_index := 0
    ui_messages := [msgB]
    selected_message_index := 0
    threaded_messages := []
    undo_stack := []
    guard := []
    status_message := none
    focused_panel := FocusedPanel.Messages }

def msgM : Message := ⟨"M", "tM", some "old", none, none, some "s", 5, none, none, false⟩

def msgM2 : Message := ⟨"M", "tM", some "new", none, none, some "s", 5, none, none, true⟩

def storeM : Store := ⟨[msgM], [("M", "INBOX")]⟩

/-- The conjunction of rollback effects of a failed delete (C5): rows
re-upserted with the viewed label's association, guard entries cleared,
failure status, UI list and selection untouched. -/
def deleteFailRollback (app : AppState) (m : Message) (e : String) (now : Nat) : Prop :=
  let r := deleteThread true (some e) now app
  let tm := get_messages_by_thread app.store m.thread_id
  let clab := (app.labels[app.selected_label_index]?).getD "INBOX"
  (∀ mm ∈ tm, message_exists r.store mm.id = true ∧ (mm.id, clab) ∈ r.store.message_labels)
  ∧ (∀ mm ∈ tm, hmLookup r.guard mm.id = none)
  ∧ r.status_message = some ("Delete failed: " ++ e)
  ∧ r.ui_messages = app.ui_messages
  ∧ r.selected_message_index = app.selected_message_index
  ∧ r.threaded_messages = app.threaded_messages

/-- The conjunction of rollback effects of a failed archive (C5): the
removed label association re-added, message rows untouched, guard
entries cleared, failure status, UI list and selection untouched. -/
def archiveFailRollback (app : AppState) (m : Message) (e : String) (now : Nat) : Prop :=
  let r := archiveThread true (some e) now app
  let tm := get_messages_by_thread app.store m.thread_id
  let clab := (app.labels[app.selected_label_index]?).getD "INBOX"
  let lrem := if clab.startsWith "CATEGORY_" then clab else "INBOX"
  (∀ mm ∈ tm, (mm.id, lrem) ∈ r.store.message_labels)
  ∧ r.store.messages = app.store.messages
  ∧ (∀ mm ∈ tm, hmLookup r.guard mm.id = none)
  ∧ r.status_message = some ("Archive failed: " ++ e)
  ∧ r.ui_messages = app.ui_messages
  ∧ r.selected_message_index = app.selected_message_index
  ∧ r.threaded_messages = app.threaded_messages

/-- The immutable projection of a message row: every column the upsert
ON CONFLICT clause does not touch. -/
def projImmutable (m : Message) :
    String × String × Option String × Option String × Option String × Int :=
  (m.id, m.thread_id, m.from_address, m.to_address, m.subject, m.internal_date)

/-- Ledger behavior of the two destructive handlers (C4, amended): the
archive handler pushes exactly on remote success; the delete handler
pushes its action before the remote call, so the push survives failure. -/
def ledgerPushProp (app : AppState) (m : Message) (e : String) (now : Nat) : Prop :=
  let tm := get_messages_by_thread app.store m.thread_id
  let clab := (app.labels[app.selected_label_index]?).getD "INBOX"
  let lrem := if clab.startsWith "CATEGORY_" then clab else "INBOX"
  (archiveThread true (some e) now app).undo_stack = app.undo_stack
  ∧ (archiveThread true none now app).undo_stack
      = UndoableAction.Archive tm lrem app.selected_message_index :: app.undo_stack
  ∧ (deleteThread true (some e) now app).undo_stack
      = UndoableAction.Delete tm clab app.selected_message_index :: app.undo_stack
  ∧ (deleteThread true none now app).undo_stack
      = UndoableAction.Delete tm clab app.selected_message_index :: app.undo_stack

/- ===== Helper lemmas ===== -/

theorem applyUiRemoval_frame (a : AppState) :
    (applyUiRemoval a).undo_stack = a.undo_stack ∧ (applyUiRemoval a).store = a.store
    ∧ (applyUiRemoval a).guard = a.guard
    ∧ (applyUiRemoval a).status_message = a.status_message := by
  unfold applyUiRemoval
  exact ⟨rfl, rfl, rfl, rfl⟩

theorem filter_filter_of_imp {α : Type} (p q : α → Bool)
    (h : ∀ x, p x = true → q x = true) :
    ∀ l : List α, (l.filter q).filter p = l.filter p := by
  intro l
  induction l with
  | nil => rfl
  | cons a l ih =>
    by_cases hq : q a = true
    · by_cases hp : p a = true <;> simp [List.filter_cons, hq, hp, ih]
    · have hp : ¬ p a = true := fun hp => hq (h a hp)
      simp [List.filter_cons, hq, hp, ih]

theorem filter_map_of_invariant {α : Type} (f : α → α) (p : α → Bool)
    (h1 : ∀ x, p x = true → f x = x) (h2 : ∀ x, p (f x) = p x) :
    ∀ l : List α, (l.map f).filter p = l.filter p := by
  intro l
  induction l with
  | nil => rfl
  | cons a l ih =>
    by_cases hp : p a = true
    · simp [List.filter_cons, h2 a, hp, h1 a hp, ih]
    · simp [List.filter_cons, h2 a, hp, ih]

theorem lastEnqueued_eq_getLast (q : List String) : lastEnqueued q = q.getLast? := by
  unfold lastEnqueued
  suffices h : ∀ init : Option String, q ≠ [] →
      q.foldl (fun _ p => some p) init = q.getLast? by
    cases q with
    | nil => rfl
    | cons a q => exact h none (by simp)
  induction q with
  | nil => intro _ h; exact absurd rfl h
  | cons a q ih =>
    intro init _
    cases q with
    | nil => rfl
    | cons b q =>
      rw [List.getLast?_cons_cons]
      exact ih (some a) (by simp)

theorem findIdx_eraseIdx_of_mem (p : String) (l : List String) (h : p ∈ l) :
    ∃ n, l.findIdx? (fun id => id == p) = some n ∧ l.eraseIdx n = l.erase p := by
  induction l with
  | nil => cases h
  | cons a l ih =>
    by_cases hap : a = p
    · subst hap
      exact ⟨0, by simp [List.findIdx?_cons], by simp [List.eraseIdx, List.erase_cons]⟩
    · have hpl : p ∈ l := by
        cases h with
        | head => exact absurd rfl hap
        | tail _ h => exact h
      obtain ⟨n, h1, h2⟩ := ih hpl
      refine ⟨n + 1, ?_, ?_⟩
      · simp [List.findIdx?_cons, hap, h1]
      · simp [List.eraseIdx, h2, List.erase_cons, hap]

theorem findIdx_none_of_not_mem (p : String) (l : List String) (h : p ∉ l) :
    l.findIdx? (fun id => id == p) = none := by
  induction l with
  | nil => rfl
  | cons a l ih =>
    have hap : ¬ a = p := fun hap => h (hap ▸ List.mem_cons_self a l)
    have hpl : p ∉ l := fun hpl => h (List.mem_cons_of_mem a hpl)
    simp [List.findIdx?_cons, hap, ih hpl]

theorem upsertOne_preserves_assoc (st : Store) (msg : Message) (lab : String)
    (pr : String × String) (h : pr ∈ st.message_labels) :
    pr ∈ (upsertOne st msg lab).message_labels := by
  unfold upsertOne
  dsimp only
  split
  · exact h
  · exact List.mem_append_left _ h

theorem upsert_preserves_assoc (msgs : List Message) (st : Store) (lab : String)
    (pr : String × String) (h : pr ∈ st.message_labels) :
    pr ∈ (upsert_messages st msgs lab).message_labels := by
  induction msgs generalizing st with
  | nil => exact h
  | cons m msgs ih => exact ih _ (upsertOne_preserves_assoc st m lab pr h)

theorem upsertOne_exists_preserved (st : Store) (msg : Message) (lab : String)
    (id : String) (h : message_exists st id = true) :
    message_exists (upsertOne st msg lab) id = true := by
  unfold message_exists at h ⊢
  unfold upsertOne
  dsimp only
  rw [List.any_eq_true] at h
  obtain ⟨m, hm, hid⟩ := h
  rw [List.any_eq_true]
  split
  · refine ⟨if m.id == msg.id then
      { m with snippet := msg.snippet, is_read := msg.is_read,
               body_plain := msg.body_plain, body_html := msg.body_html } else m, ?_, ?_⟩
    · exact List.mem_map_of_mem _ hm
    · split <;> simpa using hid
  · exact ⟨m, List.mem_append_left _ hm, hid⟩

theorem upsertOne_ensures (st : Store) (msg : Message) (lab : String) :
    message_exists (upsertOne st msg lab) msg.id = true
    ∧ (msg.id, lab) ∈ (upsertOne st msg lab).message_labels := by
  constructor
  · unfold upsertOne
    dsimp only
    unfold message_exists
    rw [List.any_eq_true]
    split
    · next hex =>
      rw [List.any_eq_true] at hex
      obtain ⟨m, hm, hid⟩ := hex
      refine ⟨if m.id == msg.id then
        { m with snippet := msg.snippet, is_read := msg.is_read,
                 body_plain := msg.body_plain, body_html := msg.body_html } else m,
        List.mem_map_of_mem _ hm, ?_⟩
      split <;> simpa using hid
    · exact ⟨msg, List.mem_append_right _ (List.mem_singleton.mpr rfl), by simp⟩
  · unfold upsertOne
    dsimp only
    split
    · next hmem => exact hmem
    · exact List.mem_append_right _ (List.mem_singleton.mpr rfl)

theorem upsert_exists_preserved (msgs : List Message) (st : Store) (lab : String)
    (id : String) (h : message_exists st id = true) :
    message_exists (upsert_messages st msgs lab) id = true := by
  induction msgs generalizing st with
  | nil => exact h
  | cons m msgs ih => exact ih _ (upsertOne_exists_preserved st m lab id h)

theorem upsert_ensures (msgs : List Message) (st : Store) (lab : String) :
    ∀ m ∈ msgs, message_exists (upsert_messages st msgs lab) m.id = true
      ∧ (m.id, lab) ∈ (upsert_messages st msgs lab).message_labels := by
  induction msgs generalizing st with
  | nil => intro m hm; cases hm
  | cons a msgs ih =>
    intro m hm
    cases hm with
    | head =>
      have base := upsertOne_ensures st a lab
      exact ⟨upsert_exists_preserved msgs _ lab _ base.1,
        upsert_preserves_assoc msgs _ lab _ base.2⟩
    | tail _ hm => exact ih _ m hm

/- ===== Claim theorems ===== -/

/-- C6: is_recently_modified returns true iff an entry for the id exists
and its age is strictly below the 300-second grace window, and
cleanup_expired keeps exactly the entries whose age is still strictly
below the window, removing those at or past it. -/
theorem guard_window_semantics (g : List (String × Nat)) (now : Nat) (id : String) :
    (is_recently_modified g now id = true
      ↔ ∃ t, hmLookup g id = some t ∧ now - t < GRACE_PERIOD)
    ∧ ∀ i t, (i, t) ∈ cleanup_expired g now ↔ ((i, t) ∈ g ∧ now - t < GRACE_PERIOD) := by
  constructor
  · unfold is_recently_modified
    cases h : hmLookup g id with
    | none => simp [h]
    | some t => simp [h]
  · intro i t
    unfold cleanup_expired
    simp [List.mem_filter]

/-- C7: when several label ids were enqueued before the cycle, the drain
keeps only the last enqueued id; if that label occurs in the fetched
list, it is moved to the front and the rest keep their fetched order. -/
theorem priority_last_to_front (fetched q : List String) (p : String)
    (h1 : q.getLast? = some p) (h2 : p ∈ fetched) :
    buildOrder fetched q = p :: fetched.erase p := by
  obtain ⟨n, hf, he⟩ := findIdx_eraseIdx_of_mem p fetched h2
  unfold buildOrder
  rw [lastEnqueued_eq_getLast, h1]
  simp only [hf, he]

/-- C7 witness: queue receives SENT then INBOX; only INBOX is
prioritized, CHAT and SENT keep their fetched order. -/
theorem priority_last_to_front_witness :
    (["SENT", "INBOX"] : List String).getLast? = some "INBOX"
    ∧ "INBOX" ∈ (["CHAT", "SENT", "INBOX"] : List String)
    ∧ buildOrder ["CHAT", "SENT", "INBOX"] ["SENT", "INBOX"]
        = "INBOX" :: (["CHAT", "SENT", "INBOX"] : List String).erase "INBOX" :=
  ⟨by decide, by decide,
    priority_last_to_front ["CHAT", "SENT", "INBOX"] ["SENT", "INBOX"] "INBOX"
      (by decide) (by decide)⟩

/-- C10: when the drained priority id does not occur in the fetched
label list, the processing order is exactly the fetched order. -/
theorem priority_unknown_ignored (fetched q : List String) (p : String)
    (h1 : q.getLast? = some p) (h2 : p ∉ fetched) :
    buildOrder fetched q = fetched := by
  unfold buildOrder
  rw [lastEnqueued_eq_getLast, h1]
  simp only [findIdx_none_of_not_mem p fetched h2]

/-- C10 witness: priority id ZZZ is unknown; the order is the fetched one. -/
theorem priority_unknown_ignored_witness :
    (["ZZZ"] : List String).getLast? = some "ZZZ"
    ∧ "ZZZ" ∉ (["CHAT", "SENT"] : List String)
    ∧ buildOrder ["CHAT", "SENT"] ["ZZZ"] = ["CHAT", "SENT"] :=
  ⟨by decide, by decide,
    priority_unknown_ignored ["CHAT", "SENT"] ["ZZZ"] "ZZZ" (by decide) (by decide)⟩

/-- C9: an undo request with an empty Undo Ledger is a no-op: the whole
app state (store, UI list, selection, guard, status) is unchanged and no
remote call is issued. -/
theorem undo_empty_noop (app : AppState) (h : app.undo_stack = []) :
    undoAction app = (app, []) := by
  unfold undoAction
  rw [h]
  split <;> rfl

/-- C9 witness: undo on a concrete state with an empty ledger. -/
theorem undo_empty_noop_witness :
    app0.undo_stack = [] ∧ undoAction app0 = (app0, []) :=
  ⟨rfl, undo_empty_noop app0 rfl⟩

/-- C1: removal inference runs only when the page has no next-page token
and returned at least one id; whenever the page is truncated (or empty)
no label association is lost in that cycle. -/
theorem truncated_page_no_removal (fetch : String → Option Message)
    (guard : String → Bool) (st : Store) (label_id : String) (ids : List String)
    (tok : Option String) (h : tok.isSome = true ∨ ids = []) :
    ∀ pr ∈ st.message_labels,
      pr ∈ (syncLabelCycle fetch guard st label_id ids tok).message_labels := by
  intro pr hpr
  have hsr : (tok.isNone && !ids.isEmpty) = false := by
    cases h with
    | inl h => cases tok <;> simp_all
    | inr h => subst h; simp
  unfold syncLabelCycle
  dsimp only
  rw [hsr]
  simp only [Bool.false_eq_true, if_false]
  exact upsert_preserves_assoc _ st label_id pr hpr

/-- C1 witness: a truncated page (a next-page token is present) leaves
A's INBOX association in place even though A was not returned. -/
theorem truncated_page_no_removal_witness :
    ((some "tok" : Option String).isSome = true ∨ (["B"] : List String) = [])
    ∧ ("A", "INBOX") ∈ storeAB.message_labels
    ∧ ("A", "INBOX")
        ∈ (syncLabelCycle fetchNone noGuard storeAB "INBOX" ["B"] (some "tok")).message_labels :=
  ⟨Or.inl rfl, by decide,
    truncated_page_no_removal fetchNone noGuard storeAB "INBOX" ["B"] (some "tok")
      (Or.inl rfl) ("A", "INBOX") (by decide)⟩

/-- C2 counterexample: in the spec's scenario (A date 100 and B date 200
under INBOX, remote page returns only B with no next-page token, nothing
guarded) the claim says A's INBOX association is removed; the code keeps
it, because A's date lies strictly below the page watermark 200. -/
theorem scenario_keeps_a_association :
    ("A", "INBOX")
      ∈ (syncLabelCycle fetchNone noGuard storeAB "INBOX" ["B"] none).message_labels := by
  decide

/-- C2 amended: in that scenario the cycle changes nothing at all — A is
outside the removal window (internal_date 100 < oldest_date 200) so its
association stays, and B, already known locally, is not re-upserted. -/
theorem scenario_cycle_is_noop :
    syncLabelCycle fetchNone noGuard storeAB "INBOX" ["B"] none = storeAB := by
  decide

theorem upsertOne_immutable (st : Store) (msg : Message) (lab : String) :
    ∀ (i : Nat) (m : Message), st.messages[i]? = some m →
      ∃ m2, (upsertOne st msg lab).messages[i]? = some m2
        ∧ projImmutable m2 = projImmutable m := by
  intro i m hm
  unfold upsertOne
  dsimp only
  split
  · refine ⟨if m.id == msg.id then
      { m with snippet := msg.snippet, is_read := msg.is_read,
               body_plain := msg.body_plain, body_html := msg.body_html } else m, ?_, ?_⟩
    · rw [List.getElem?_map, hm]
      rfl
    · split <;> rfl
  · have hlen : i < st.messages.length := (List.getElem?_eq_some_iff.mp hm).1
    exact ⟨m, by rw [List.getElem?_append_left hlen]; exact hm, rfl⟩

/-- C8 amended: an upsert never changes the id, thread_id, addresses,
subject or internal_date of a row already in the store (internal_date is
immutable once set); the remotely refreshed columns are snippet,
body_plain, body_html and is_read, plus the label association. -/
theorem upsert_immutable_columns (msgs : List Message) (st : Store) (lab : String) :
    ∀ (i : Nat) (m : Message), st.messages[i]? = some m →
      ∃ m2, (upsert_messages st msgs lab).messages[i]? = some m2
        ∧ projImmutable m2 = projImmutable m := by
  induction msgs generalizing st with
  | nil => intro i m hm; exact ⟨m, hm, rfl⟩
  | cons a msgs ih =>
    intro i m hm
    obtain ⟨m1, hm1, he1⟩ := upsertOne_immutable st a lab i m hm
    obtain ⟨m2, hm2, he2⟩ := ih (upsertOne st a lab) i m1 hm1
    exact ⟨m2, hm2, he1 ▸ he2⟩

/-- C8 witness: upserting an already-present row keeps its immutable
columns (in particular internal_date). -/
theorem upsert_immutable_columns_witness :
    storeM.messages[0]? = some msgM
    ∧ ∃ m2, (upsert_messages storeM [msgM2] "INBOX").messages[0]? = some m2
        ∧ projImmutable m2 = projImmutable msgM :=
  ⟨rfl, upsert_immutable_columns [msgM2] storeM "INBOX" 0 msgM rfl⟩

theorem scanIds_messages_guarded (fetch : String → Option Message)
    (guard : String → Bool) (st : Store) (gid : String) (hg : guard gid = true)
    (hf : ∀ i msg, fetch i = some msg → msg.id = i) :
    ∀ (ids : List String) (acc : ScanAcc), (∀ m ∈ acc.messages, ¬ m.id = gid) →
      ∀ m ∈ (scanIds fetch guard st ids acc).messages, ¬ m.id = gid := by
  intro ids
  induction ids with
  | nil => intro acc hacc; exact hacc
  | cons id rest ih =>
    intro acc hacc
    unfold scanIds
    by_cases hgid : guard id = true
    · rw [if_pos hgid]
      exact ih acc hacc
    · rw [if_neg hgid]
      dsimp only
      split
      · split
        · exact ih _ hacc
        · exact ih _ hacc
      · split
        · next msg hmsg =>
          refine ih _ ?_
          intro m hm
          dsimp only at hm
          rcases List.mem_append.mp hm with h | h
          · exact hacc m h
          · have hid : msg.id = id := hf id msg hmsg
            have : m = msg := List.mem_singleton.mp h
            subst this
            rw [hid]
            intro hcon
            exact hgid (hcon ▸ hg)
        · exact ih _ hacc

theorem upsertOne_filter_guarded (st : Store) (msg : Message) (lab gid : String)
    (h : ¬ msg.id = gid) :
    (upsertOne st msg lab).messages.filter (fun m => m.id == gid)
        = st.messages.filter (fun m => m.id == gid)
    ∧ (upsertOne st msg lab).message_labels.filter (fun pr => pr.1 == gid)
        = st.message_labels.filter (fun pr => pr.1 == gid) := by
  unfold upsertOne
  dsimp only
  constructor
  · split
    · apply filter_map_of_invariant
      · intro x hx
        have : x.id = gid := by simpa using hx
        have : ¬ x.id == msg.id := by simp [this]; intro hc; exact h (hc ▸ rfl)
        simp [this]
      · intro x
        split
        · next heq =>
          have : x.id = msg.id := by simpa using heq
          simp [this]
        · rfl
    · rw [List.filter_append]
      have : ¬ msg.id == gid := by simpa using h
      simp [this]
  · split
    · rfl
    · rw [List.filter_append]
      have : ¬ msg.id == gid := by simpa using h
      simp [this]

theorem upsert_filter_guarded (msgs : List Message) (st : Store) (lab gid : String)
    (h : ∀ m ∈ msgs, ¬ m.id = gid) :
    (upsert_messages st msgs lab).messages.filter (fun m => m.id == gid)
        = st.messages.filter (fun m => m.id == gid)
    ∧ (upsert_messages st msgs lab).message_labels.filter (fun pr => pr.1 == gid)
        = st.message_labels.filter (fun pr => pr.1 == gid) := by
  induction msgs generalizing st with
  | nil => exact ⟨rfl, rfl⟩
  | cons a msgs ih =>
    have ha := upsertOne_filter_guarded st a lab gid (h a (List.mem_cons_self a msgs))
    have hrest := ih (upsertOne st a lab) (fun m hm => h m (List.mem_cons_of_mem a hm))
    exact ⟨hrest.1.trans ha.1, hrest.2.trans ha.2⟩

theorem removalPass_messages (guard : String → Bool) (rids : List String)
    (od : Int) (lab : String) :
    ∀ (rows : List (String × Int)) (st : Store),
      (removalPass guard rids od lab rows st).messages = st.messages := by
  intro rows
  induction rows with
  | nil => intro st; rfl
  | cons r rest ih =>
    intro st
    obtain ⟨lid, ld⟩ := r
    unfold removalPass
    split
    · exact ih st
    · split
      · exact ih _
      · exact ih st

theorem removalPass_filter_guarded (guard : String → Bool) (rids : List String)
    (od : Int) (lab gid : String) (hg : guard gid = true) :
    ∀ (rows : List (String × Int)) (st : Store),
      (removalPass guard rids od lab rows st).message_labels.filter (fun pr => pr.1 == gid)
        = st.message_labels.filter (fun pr => pr.1 == gid) := by
  intro rows
  induction rows with
  | nil => intro st; rfl
  | cons r rest ih =>
    intro st
    obtain ⟨lid, ld⟩ := r
    unfold removalPass
    split
    · exact ih st
    · next hlid =>
      split
      · rw [ih]
        show (st.message_labels.filter _).filter _ = _
        apply filter_filter_of_imp
        intro pr hpr
        have hpr1 : pr.1 = gid := by simpa using hpr
        have hne : ¬ pr.1 == lid := by
          simp [hpr1]
          intro hc
          exact hlid (hc ▸ hg)
        simp [hne]
      · exact ih st

/-- C3: a message id guarded (unexpired Modification Guard entry)
throughout a cycle is untouched by that cycle: its stored rows and its
label associations are exactly as before — it is excluded from the seen
set and upsert candidates and from removal inference.  fetch is assumed
to return a message whose id is the requested one. -/
theorem guarded_id_untouched (fetch : String → Option Message) (guard : String → Bool)
    (st : Store) (label_id : String) (ids : List String) (tok : Option String)
    (gid : String) (hg : guard gid = true)
    (hf : ∀ i msg, fetch i = some msg → msg.id = i) :
    (syncLabelCycle fetch guard st label_id ids tok).messages.filter (fun m => m.id == gid)
        = st.messages.filter (fun m => m.id == gid)
    ∧ (syncLabelCycle fetch guard st label_id ids tok).message_labels.filter
          (fun pr => pr.1 == gid)
        = st.message_labels.filter (fun pr => pr.1 == gid) := by
  have hscan : ∀ m ∈ (scanIds fetch guard st ids ⟨[], [], i64Max⟩).messages, ¬ m.id = gid :=
    scanIds_messages_guarded fetch guard st gid hg hf ids ⟨[], [], i64Max⟩
      (by intro m hm; cases hm)
  have hup := upsert_filter_guarded (scanIds fetch guard st ids ⟨[], [], i64Max⟩).messages
    st label_id gid hscan
  unfold syncLabelCycle
  dsimp only
  split
  · constructor
    · rw [removalPass_messages]
      exact hup.1
    · rw [removalPass_filter_guarded guard _ _ label_id gid hg]
      exact hup.2
  · exact hup

/-- C3 witness: G (date 500) is guarded; the page returned only B with no
token, so G is inside the removal window and absent remotely, yet the
cycle leaves G's row and its INBOX association untouched. -/
theorem guarded_id_untouched_witness :
    guardG "G" = true
    ∧ (syncLabelCycle fetchNone guardG storeGB "INBOX" ["G", "B"] none).messages.filter
          (fun m => m.id == "G")
        = storeGB.messages.filter (fun m => m.id == "G")
    ∧ (syncLabelCycle fetchNone guardG storeGB "INBOX" ["G", "B"] none).message_labels.filter
          (fun pr => pr.1 == "G")
        = storeGB.message_labels.filter (fun pr => pr.1 == "G") := by
  refine ⟨rfl, ?_⟩
  exact guarded_id_untouched fetchNone guardG storeGB "INBOX" ["G", "B"] none "G" rfl
    (fun i msg h => nomatch h)

/-- C4 counterexample: the delete handler pushes the Delete action onto
the Undo Ledger BEFORE the remote trash call; when that call fails the
ledger has still changed, against the push-iff-success claim. -/
theorem delete_failure_still_pushes :
    ¬ (deleteThread true (some "boom") 7 app0).undo_stack = app0.undo_stack := by
  decide

/-- C4 amended: an Undoable Action is pushed iff the remote mutation
succeeded for archive; for delete the action is pushed before the remote
call and remains on the ledger even when the call fails. -/
theorem ledger_push_semantics (app : AppState) (m : Message) (e : String) (now : Nat)
    (h1 : ¬ app.focused_panel = FocusedPanel.Labels)
    (h2 : app.ui_messages[app.selected_message_index]? = some m) :
    ledgerPushProp app m e now := by
  unfold ledgerPushProp
  refine ⟨?_, ?_, ?_, ?_⟩
  · unfold archiveThread
    rw [if_neg h1]
    dsimp only
    rw [h2]
    rfl
  · unfold archiveThread
    rw [if_neg h1]
    dsimp only
    rw [h2]
    dsimp only
    rw [if_pos rfl, (applyUiRemoval_frame _).1]
  · unfold deleteThread
    rw [if_neg h1]
    dsimp only
    rw [h2]
    rfl
  · unfold deleteThread
    rw [if_neg h1]
    dsimp only
    rw [h2]
    dsimp only
    rw [if_pos rfl, (applyUiRemoval_frame _).1]

/-- C4 witness: the amended ledger semantics at a concrete state. -/
theorem ledger_push_semantics_witness :
    ¬ app0.focused_panel = FocusedPanel.Labels
    ∧ app0.ui_messages[app0.selected_message_index]? = some msgB
    ∧ ledgerPushProp app0 msgB "boom" 7 :=
  ⟨by decide, rfl, ledger_push_semantics app0 msgB "boom" 7 (by decide) rfl⟩

/-- C8 counterexample: is_read and label associations are NOT the only
fields an upsert may change — re-upserting M with a new snippet changes
the stored snippet of the existing row. -/
theorem upsert_changes_snippet :
    ((upsert_messages storeM [msgM2] "INBOX").messages.map (fun m => m.snippet))
        = [some "new"]
    ∧ (storeM.messages.map (fun m => m.snippet)) = [some "old"] := by
  constructor <;> decide

theorem hmLookup_filter_none (g : List (String × Nat)) (q : String × Nat → Bool)
    (id : String) (h : hmLookup g id = none) : hmLookup (g.filter q) id = none := by
  unfold hmLookup at h ⊢
  rw [Option.map_eq_none'] at h ⊢
  rw [List.find?_eq_none] at h ⊢
  intro x hx
  exact h x (List.mem_of_mem_filter hx)

theorem hmRemove_self (g : List (String × Nat)) (id : String) :
    hmLookup (hmRemove g id) id = none := by
  unfold hmLookup hmRemove
  rw [Option.map_eq_none', List.find?_eq_none]
  intro x hx
  have := List.of_mem_filter hx
  simpa using this

theorem removeKeys_absent (ids : List String) (g : List (String × Nat)) (id : String)
    (h : hmLookup g id = none) : hmLookup (removeKeys g ids) id = none := by
  induction ids generalizing g with
  | nil => exact h
  | cons a ids ih => exact ih (hmRemove g a) (hmLookup_filter_none g _ id h)

theorem removeKeys_removes (ids : List String) (g : List (String × Nat)) (id : String)
    (h : id ∈ ids) : hmLookup (removeKeys g ids) id = none := by
  induction ids generalizing g with
  | nil => cases h
  | cons a ids ih =>
    cases h with
    | head => exact removeKeys_absent ids (hmRemove g id) id (hmRemove_self g id)
    | tail _ h => exact ih (hmRemove g a) h

theorem addLabel_preserves_assoc (st : Store) (i l : String) (pr : String × String)
    (h : pr ∈ st.message_labels) : pr ∈ (add_label_to_message st i l).message_labels := by
  unfold add_label_to_message
  dsimp only
  split
  · exact h
  · exact List.mem_append_left _ h

theorem addFold_preserves_assoc (ids : List String) (st : Store) (lab : String)
    (pr : String × String) (h : pr ∈ st.message_labels) :
    pr ∈ (ids.foldl (fun s id => add_label_to_message s id lab) st).message_labels := by
  induction ids generalizing st with
  | nil => exact h
  | cons a ids ih => exact ih _ (addLabel_preserves_assoc st a lab pr h)

theorem addFold_ensures (ids : List String) (st : Store) (lab : String) :
    ∀ id ∈ ids,
      (id, lab) ∈ (ids.foldl (fun s id => add_label_to_message s id lab) st).message_labels := by
  induction ids generalizing st with
  | nil => intro id h; cases h
  | cons a ids ih =>
    intro id h
    cases h with
    | head =>
      refine addFold_preserves_assoc ids _ lab (a, lab) ?_
      unfold add_label_to_message
      dsimp only
      split
      · next hmem => exact hmem
      · exact List.mem_append_right _ (List.mem_singleton.mpr rfl)
    | tail _ h => exact ih _ id h

theorem addFold_messages (ids : List String) (st : Store) (lab : String) :
    (ids.foldl (fun s id => add_label_to_message s id lab) st).messages = st.messages := by
  induction ids generalizing st with
  | nil => rfl
  | cons a ids ih => exact (ih _).trans rfl

theorem removeFold_messages (ids : List String) (st : Store) (lab : String) :
    (ids.foldl (fun s id => remove_label_from_message s id lab) st).messages
      = st.messages := by
  induction ids generalizing st with
  | nil => rfl
  | cons a ids ih => exact (ih _).trans rfl

/-- C5: when the awaited remote call of a delete or archive fails, the
handler rolls back: the deleted rows are re-upserted (delete) or the
removed label association is re-added (archive) so every affected
message retains its association under the relevant label, the guard
entries of the affected ids are cleared, a failure status carrying the
error is shown, and the UI list, selection and detail view are
untouched. -/
theorem failed_mutation_rolls_back (app : AppState) (m : Message) (e : String) (now : Nat)
    (h1 : ¬ app.focused_panel = FocusedPanel.Labels)
    (h2 : app.ui_messages[app.selected_message_index]? = some m) :
    deleteFailRollback app m e now ∧ archiveFailRollback app m e now := by
  constructor
  · unfold deleteFailRollback
    have hred : deleteThread true (some e) now app =
        { app with
            store := upsert_messages
              (List.foldl delete_message app.store
                (List.map (fun m => m.id) (get_messages_by_thread app.store m.thread_id)))
              (get_messages_by_thread app.store m.thread_id)
              ((app.labels[app.selected_label_index]?).getD "INBOX"),
            undo_stack := UndoableAction.Delete (get_messages_by_thread app.store m.thread_id)
              ((app.labels[app.selected_label_index]?).getD "INBOX")
              app.selected_message_index :: app.undo_stack,
            guard := removeKeys
              (mark_modified_many app.guard
                ((get_messages_by_thread app.store m.thread_id).map (fun m => m.id)) now)
              ((get_messages_by_thread app.store m.thread_id).map (fun m => m.id)),
            status_message := some ("Delete failed: " ++ e),
            focused_panel := FocusedPanel.Messages } := by
      unfold deleteThread
      rw [if_neg h1]
      dsimp only
      rw [h2]
      rfl
    rw [hred]
    dsimp only
    refine ⟨?_, ?_, rfl, rfl, rfl, rfl⟩
    · intro mm hmm
      exact upsert_ensures _ _ _ mm hmm
    · intro mm hmm
      refine removeKeys_removes _ _ _ ?_
      exact List.mem_map_of_mem (fun m => m.id) hmm
  · unfold archiveFailRollback
    have hred : archiveThread true (some e) now app =
        { app with
            store := List.foldl
              (fun s id => add_label_to_message s id
                (if ((app.labels[app.selected_label_index]?).getD "INBOX").startsWith
                      "CATEGORY_"
                 then (app.labels[app.selected_label_index]?).getD "INBOX" else "INBOX"))
              (List.foldl
                (fun s id => remove_label_from_message s id
                  (if ((app.labels[app.selected_label_index]?).getD "INBOX").startsWith
                        "CATEGORY_"
                   then (app.labels[app.selected_label_index]?).getD "INBOX" else "INBOX"))
                app.store
                (List.map (fun m => m.id) (get_messages_by_thread app.store m.thread_id)))
              (List.map (fun m => m.id) (get_messages_by_thread app.store m.thread_id)),
            guard := removeKeys
              (mark_modified_many app.guard
                ((get_messages_by_thread app.store m.thread_id).map (fun m => m.id)) now)
              ((get_messages_by_thread app.store m.thread_id).map (fun m => m.id)),
            status_message := some ("Archive failed: " ++ e),
            focused_panel := FocusedPanel.Messages } := by
      unfold archiveThread
      rw [if_neg h1]
      dsimp only
      rw [h2]
      rfl
    rw [hred]
    dsimp only
    refine ⟨?_, ?_, ?_, rfl, rfl, rfl, rfl⟩
    · intro mm hmm
      exact addFold_ensures _ _ _ mm.id (List.mem_map_of_mem (fun m => m.id) hmm)
    · rw [addFold_messages, removeFold_messages]
    · intro mm hmm
      refine removeKeys_removes _ _ _ ?_
      exact List.mem_map_of_mem (fun m => m.id) hmm

/-- C5 witness: the rollback conjunction at a concrete failing delete
and archive. -/
theorem failed_mutation_rolls_back_witness :
    ¬ app0.focused_panel = FocusedPanel.Labels
    ∧ app0.ui_messages[app0.selected_message_index]? = some msgB
    ∧ deleteFailRollback app0 msgB "boom" 7 ∧ archiveFailRollback app0 msgB "boom" 7 :=
  ⟨by decide, rfl, failed_mutation_rolls_back app0 msgB "boom" 7 (by decide) rfl⟩

end Gtui
